import Mathlib

/-!
# Verification of `recursive_variadic` (src/lib.rs)

Shallow embedding of the type-indexed heterogeneous container.

The Rust code stores values of arbitrary static types in a chain
`Entry<T, R>` terminated by `Empty = ()`, and looks them up by comparing
`TypeId::of::<N>() == TypeId::of::<T>()` before a `transmute`.  We model
Rust types by a code universe `Ty` with decidable equality (the code plays
the role of the `TypeId`; its decidable equality is the exact `TypeId`
comparison) and an interpretation `Ty.interp` into Lean types.  Two
distinct codes may interpret to the same Lean type, mirroring the fact
that `TypeId` identity is nominal, not structural.  The guarded
`transmute` becomes a `cast` along the equality proof produced by the
type-identity test, so the reinterpretation is only ever performed after
the exact equality check succeeds, exactly as in the source.
-/

namespace RecVar

/-- Codes for the Rust types used by the crate and its tests, standing in
for `TypeId`s.  `tUSize` and `tU32` both interpret to `Nat`, and `tStr`
and `tString` both interpret to `String`: identity is the code, not the
representation. -/
inductive Ty where
  | tI32
  | tUSize
  | tU32
  | tBool
  | tStr
  | tString
  | tVec (t : Ty)
deriving DecidableEq

/-- Interpretation of a type code as a Lean type. -/
@[reducible] def Ty.interp : Ty → Type
  | .tI32 => Int
  | .tUSize => Nat
  | .tU32 => Nat
  | .tBool => Bool
  | .tStr => String
  | .tString => String
  | .tVec t => List t.interp

/-- The `Default::default()` value of each interpreted type. -/
def Ty.defaultVal : (t : Ty) → t.interp
  | .tI32 => 0
  | .tUSize => 0
  | .tU32 => 0
  | .tBool => false
  | .tStr => ""
  | .tString => ""
  | .tVec _ => []

/-- A container chain: `empty` is the Rust `Empty = ()` terminator, and
`entry t data parent` is `Entry { data, parent }` holding a value of the
type coded by `t`.  The tip of the chain (outermost `Entry`) comes first. -/
inductive Chain where
  | empty : Chain
  | entry (t : Ty) (data : t.interp) (parent : Chain)

/-- `RecursiveVariadic::get::<N>` from src/lib.rs: on `Empty` return
`None`; on `Entry` compare the requested identity with the stored one and
on success return the data (the `transmute` is the `cast` along the
equality proof `h`, executed only after the test succeeds), otherwise
recurse into the parent. -/
def Chain.get (n : Ty) : Chain → Option n.interp
  | .empty => none
  | .entry t data parent =>
    if h : n = t then some (cast (congrArg Ty.interp h.symm) data)
    else parent.get n

/-- `RecursiveVariadic::get_mut::<N>` from src/lib.rs.  In this pure
embedding it returns the value the mutable reference points at; the shape
of the recursion is that of the source `get_mut`. -/
def Chain.get_mut (n : Ty) : Chain → Option n.interp
  | .empty => none
  | .entry t data parent =>
    if h : n = t then some (cast (congrArg Ty.interp h.symm) data)
    else parent.get_mut n

/-- `RecursiveVariadic::and::<N>` from src/lib.rs: wrap the current chain
as the parent of one fresh `Entry` holding `v`. -/
def Chain.and (c : Chain) (t : Ty) (v : t.interp) : Chain :=
  .entry t v c

/-- The list of stored type identities of a chain, tip first. -/
def Chain.types : Chain → List Ty
  | .empty => []
  | .entry t _ parent => t :: parent.types

/-- Writing the value `v` through the mutable reference returned by
`get_mut n`: the first entry matching `n` (the one `get_mut` returns a
reference into) has its data replaced in place; nothing else changes. -/
def Chain.set (n : Ty) (v : n.interp) : Chain → Chain
  | .empty => .empty
  | .entry t data parent =>
    if h : n = t then .entry t (cast (congrArg Ty.interp h) v) parent
    else .entry t data (parent.set n v)

/-- Insert a sequence of typed values, left to right, via `and`. -/
def insertAll (c : Chain) (xs : List ((t : Ty) × t.interp)) : Chain :=
  xs.foldl (fun acc x => acc.and x.1 x.2) c

/- ## Reduction lemmas for `get`, `get_mut` and `set` on an `Entry` -/

theorem Chain.get_entry_self (t : Ty) (v : t.interp) (p : Chain) :
    (Chain.entry t v p).get t = some v := by
  have h : (Chain.entry t v p).get t
      = if h : t = t then some (cast (congrArg Ty.interp h.symm) v)
        else p.get t := rfl
  rw [h, dif_pos rfl]
  rfl

theorem Chain.get_entry_ne {n t : Ty} (hne : n ≠ t) (v : t.interp)
    (p : Chain) : (Chain.entry t v p).get n = p.get n := by
  have h : (Chain.entry t v p).get n
      = if h : n = t then some (cast (congrArg Ty.interp h.symm) v)
        else p.get n := rfl
  rw [h, dif_neg hne]

theorem Chain.get_mut_entry_self (t : Ty) (v : t.interp) (p : Chain) :
    (Chain.entry t v p).get_mut t = some v := by
  have h : (Chain.entry t v p).get_mut t
      = if h : t = t then some (cast (congrArg Ty.interp h.symm) v)
        else p.get_mut t := rfl
  rw [h, dif_pos rfl]
  rfl

theorem Chain.get_mut_entry_ne {n t : Ty} (hne : n ≠ t) (v : t.interp)
    (p : Chain) : (Chain.entry t v p).get_mut n = p.get_mut n := by
  have h : (Chain.entry t v p).get_mut n
      = if h : n = t then some (cast (congrArg Ty.interp h.symm) v)
        else p.get_mut n := rfl
  rw [h, dif_neg hne]

theorem Chain.set_entry_self (t : Ty) (d v : t.interp) (p : Chain) :
    (Chain.entry t d p).set t v = Chain.entry t v p := by
  have h : (Chain.entry t d p).set t v
      = if h : t = t then Chain.entry t (cast (congrArg Ty.interp h) v) p
        else Chain.entry t d (p.set t v) := rfl
  rw [h, dif_pos rfl]
  rfl

theorem Chain.set_entry_ne {n t : Ty} (hne : n ≠ t) (v : n.interp)
    (d : t.interp) (p : Chain) :
    (Chain.entry t d p).set n v = Chain.entry t d (p.set n v) := by
  have h : (Chain.entry t d p).set n v
      = if h : n = t then Chain.entry t (cast (congrArg Ty.interp h) v) p
        else Chain.entry t d (p.set n v) := rfl
  rw [h, dif_neg hne]

/-- A lookup of `b` on an entry storing identity `a` with `a = b` finds
that entry's data, cast along the equality. -/
theorem Chain.get_entry_eq {a b : Ty} (h : a = b) (v : a.interp)
    (p : Chain) :
    (Chain.entry a v p).get b = some (cast (congrArg Ty.interp h) v) := by
  subst h
  exact Chain.get_entry_self a v p

/- ## Lemmas about `insertAll` -/

theorem insertAll_cons (c : Chain) (x : (t : Ty) × t.interp)
    (xs : List ((t : Ty) × t.interp)) :
    insertAll c (x :: xs) = insertAll (c.and x.1 x.2) xs := rfl

/-- Inserting values whose identities all differ from `n` does not change
the result of `get n`. -/
theorem insertAll_get_not_mem (xs : List ((t : Ty) × t.interp))
    (c : Chain) {n : Ty} (h : n ∉ xs.map Sigma.fst) :
    (insertAll c xs).get n = c.get n := by
  induction xs generalizing c with
  | nil => rfl
  | cons x xs ih =>
    simp only [List.map_cons, List.mem_cons, not_or] at h
    rw [insertAll_cons, ih (c.and x.1 x.2) h.2]
    exact Chain.get_entry_ne h.1 x.2 c

/-- Inserting a list of values with pairwise-distinct identities makes
each of them retrievable, from any base chain. -/
theorem insertAll_get_mem (xs : List ((t : Ty) × t.interp))
    (h : (xs.map Sigma.fst).Nodup) (x : (t : Ty) × t.interp)
    (hx : x ∈ xs) (c : Chain) :
    (insertAll c xs).get x.1 = some x.2 := by
  induction xs generalizing c with
  | nil => cases hx
  | cons y ys ih =>
    simp only [List.map_cons, List.nodup_cons] at h
    rcases List.mem_cons.mp hx with rfl | hmem
    · rw [insertAll_cons, insertAll_get_not_mem ys (c.and x.1 x.2) h.1]
      exact Chain.get_entry_self x.1 x.2 c
    · rw [insertAll_cons]
      exact ih h.2 hmem (c.and y.1 y.2)

/- ## The wrapper struct generated by `create_wrapper!`

`create_wrapper!(Name, N => Output<N>)` expands to a struct holding one
chain, whose four operations delegate to the chain at the full type
`Output<N>`.  The type constructor `Output` is modelled as a function
`out : Ty → Ty` on type codes. -/

/-- The generated wrapper struct: one field `data` holding the inner
chain. -/
structure Wrapper where
  data : Chain

/-- The generated `new`: wraps the empty chain `()`. -/
def Wrapper.new : Wrapper := ⟨Chain.empty⟩

/-- The generated `get::<N>`: `self.data.get()` at type `Output<N>`. -/
def Wrapper.get (out : Ty → Ty) (n : Ty) (w : Wrapper) :
    Option (out n).interp :=
  w.data.get (out n)

/-- The generated `get_mut::<N>`: `self.data.get_mut()` at `Output<N>`. -/
def Wrapper.get_mut (out : Ty → Ty) (n : Ty) (w : Wrapper) :
    Option (out n).interp :=
  w.data.get_mut (out n)

/-- The generated `and::<N>(val)`: `self.data.and(val)` at `Output<N>`. -/
def Wrapper.and (out : Ty → Ty) (n : Ty) (w : Wrapper)
    (v : (out n).interp) : Wrapper :=
  ⟨w.data.and (out n) v⟩

/-- The generated `and_default::<N>()`: `self.data.and(Default::default())`
at `Output<N>`. -/
def Wrapper.and_default (out : Ty → Ty) (n : Ty) (w : Wrapper) : Wrapper :=
  ⟨w.data.and (out n) (Ty.defaultVal (out n))⟩

/- ## Variant B: the key-associated container -/

/-- Modelled from the spec: Variant B, the key-associated container, is
not present under src/ (only Variant A is).  Per the spec, values are
looked up by a separate key type that declares an associated value type;
key identity, not the value type, decides a match.  Keys are modelled by
their identity token (a `Nat` standing for the key type's `TypeId`) and
the compile-time key-to-value-type association by a function
`kv : Nat → Ty`.  An entry stores its key and a value of the key's
declared value type. -/
inductive KChain (kv : Nat → Ty) where
  | empty : KChain kv
  | entry (k : Nat) (data : (kv k).interp) (parent : KChain kv)

/-- Modelled from the spec: Variant B `get::<N>` — compare the entry's
key identity with the requested key; on match return the entry's data
(of the key's declared value type), otherwise recurse into the parent;
at the terminator return nothing. -/
def KChain.get {kv : Nat → Ty} (n : Nat) :
    KChain kv → Option (kv n).interp
  | .empty => none
  | .entry k data parent =>
    if h : n = k then
      some (cast (congrArg (fun j => (kv j).interp) h.symm) data)
    else parent.get n

/-- Modelled from the spec: Variant B `insert::<K>(value: K::Value)` —
wrap the current chain as the parent of one fresh entry under key `k`. -/
def KChain.and {kv : Nat → Ty} (c : KChain kv) (k : Nat)
    (v : (kv k).interp) : KChain kv :=
  .entry k v c

theorem KChain.kget_entry_self {kv : Nat → Ty} (k : Nat)
    (v : (kv k).interp) (p : KChain kv) :
    (KChain.entry k v p).get k = some v := by
  have h : (KChain.entry k v p).get k
      = if h : k = k then
          some (cast (congrArg (fun j => (kv j).interp) h.symm) v)
        else p.get k := rfl
  rw [h, dif_pos rfl]
  rfl

theorem KChain.kget_entry_ne {kv : Nat → Ty} {n k : Nat} (hne : n ≠ k)
    (v : (kv k).interp) (p : KChain kv) :
    (KChain.entry k v p).get n = p.get n := by
  have h : (KChain.entry k v p).get n
      = if h : n = k then
          some (cast (congrArg (fun j => (kv j).interp) h.symm) v)
        else p.get n := rfl
  rw [h, dif_neg hne]

/- ## The test scenario of `tests::it_works` -/

/-- The string literal inserted in the end-to-end scenario. -/
def hello : String := "Hello!"

/-- The chain of the end-to-end scenario: insert `23i32`, then the string
slice, then the default `usize` value. -/
def exampleChain : Chain :=
  ((Chain.empty.and .tI32 23).and .tStr hello).and .tUSize
    (Ty.defaultVal .tUSize)

/- ## The claims -/

/-- Claim C1: for every chain and every requested identity `n` that equals
no stored identity in the chain, `get` and `get_mut` return `none`; the
cast (the `transmute`) in `Chain.get`/`Chain.get_mut` is performed only
under the equality proof produced by the exact identity test, so a lookup
never produces a value of an identity other than the requested one. -/
theorem claim_C1 (c : Chain) (n : Ty) (h : n ∉ c.types) :
    c.get n = none ∧ c.get_mut n = none := by
  induction c with
  | empty => exact ⟨rfl, rfl⟩
  | entry t d p ih =>
    simp only [Chain.types, List.mem_cons, not_or] at h
    rw [Chain.get_entry_ne h.1 d p, Chain.get_mut_entry_ne h.1 d p]
    exact ih h.2

/-- Concrete instance of C1: `bool` was never inserted, so both lookups
return `none`. -/
theorem claim_C1_witness :
    ((Chain.empty.and .tI32 23).get .tBool = none) ∧
    ((Chain.empty.and .tI32 23).get_mut .tBool = none) :=
  claim_C1 (Chain.empty.and .tI32 23) .tBool (by decide)

/-- Claim C2: inserting `v1` and then `v2` under the same identity `t`
makes `get t` return `v2`, the newer value: traversal starts at the
outermost (most recent) entry and stops at the first identity match, so
the newer entry shadows the older one. -/
theorem claim_C2 (c : Chain) (t : Ty) (v1 v2 : t.interp) :
    ((c.and t v1).and t v2).get t = some v2 :=
  Chain.get_entry_self t v2 (c.and t v1)

/-- Claim C3: for every sequence of insertions of values with
pairwise-distinct identities starting from the empty chain, `get` at each
inserted identity returns exactly the value inserted for it, for every
length and insertion order. -/
theorem claim_C3 (xs : List ((t : Ty) × t.interp))
    (h : (xs.map Sigma.fst).Nodup) (x : (t : Ty) × t.interp)
    (hx : x ∈ xs) :
    (insertAll Chain.empty xs).get x.1 = some x.2 :=
  insertAll_get_mem xs h x hx Chain.empty

/-- Concrete instance of C3: after inserting an `i32` and a `bool`,
looking up `bool` returns the inserted `bool`. -/
theorem claim_C3_witness :
    (insertAll Chain.empty [⟨.tI32, 23⟩, ⟨.tBool, true⟩]).get Ty.tBool
      = some true :=
  claim_C3 [⟨.tI32, 23⟩, ⟨.tBool, true⟩] (by decide) ⟨.tBool, true⟩
    (List.Mem.tail _ (List.Mem.head _))

/-- Claim C4: on the empty container, `get` and `get_mut` return `none`
for every requested identity; both are total Lean functions with no other
outcome. -/
theorem claim_C4 (n : Ty) :
    Chain.empty.get n = none ∧ Chain.empty.get_mut n = none :=
  ⟨rfl, rfl⟩

/-- Claim C5: `get_mut` follows the identical contract and algorithm as
`get`: it is `some` exactly when `get` is, and both return the data of
the same (first matching) entry — in this pure embedding the two
functions agree on every chain and every requested identity. -/
theorem claim_C5 (c : Chain) (n : Ty) :
    ((c.get_mut n).isSome = (c.get n).isSome) ∧ c.get_mut n = c.get n := by
  have key : c.get_mut n = c.get n := by
    induction c with
    | empty => rfl
    | entry t d p ih =>
      by_cases h : n = t
      · subst h
        rw [Chain.get_mut_entry_self, Chain.get_entry_self]
      · rw [Chain.get_mut_entry_ne h, Chain.get_entry_ne h, ih]
  exact ⟨by rw [key], key⟩

/-- Claim C6: when the chain holds an entry of identity `n` (i.e.
`get_mut n` succeeds), writing `v` through the reference returned by
`get_mut` (modelled by `Chain.set`) is observed by every subsequent
`get n` and `get_mut n`: the write lands on the stored slot itself. -/
theorem claim_C6 (c : Chain) (n : Ty) (v : n.interp)
    (h : (c.get_mut n).isSome = true) :
    (c.set n v).get n = some v ∧ (c.set n v).get_mut n = some v := by
  induction c with
  | empty => exact Bool.noConfusion h
  | entry t d p ih =>
    by_cases he : n = t
    · subst he
      rw [Chain.set_entry_self]
      exact ⟨Chain.get_entry_self n v p, Chain.get_mut_entry_self n v p⟩
    · rw [Chain.get_mut_entry_ne he d p] at h
      rw [Chain.set_entry_ne he v d p, Chain.get_entry_ne he d (p.set n v),
        Chain.get_mut_entry_ne he d (p.set n v)]
      exact ih h

/-- Concrete instance of C6: overwriting the stored `bool` through
`get_mut` is seen by the next `get` and `get_mut`. -/
theorem claim_C6_witness :
    ((Chain.empty.and .tBool false).set .tBool true).get .tBool
        = some true ∧
    ((Chain.empty.and .tBool false).set .tBool true).get_mut .tBool
        = some true :=
  claim_C6 (Chain.empty.and .tBool false) .tBool true (by decide)

/-- Claim C7: inserting `23i32`, then the string "Hello!", then the
default `usize` yields a chain where `get` at `i32` is `some 23`, `get`
at the string-slice identity is the inserted string, and `get` at `bool`
is `none`. -/
theorem claim_C7 :
    exampleChain.get .tI32 = some 23 ∧
    exampleChain.get .tStr = some hello ∧
    exampleChain.get .tBool = none :=
  ⟨rfl, rfl, rfl⟩

/-- Claim C8: in the key-associated Variant B, two distinct keys
declaring the same value type are independently addressable: after
inserting `v1` under `k1` and `v2` under `k2`, looking up `k1` returns
exactly `v1` (never `k2`'s value) and looking up `k2` returns exactly
`v2`. -/
theorem claim_C8 (kv : Nat → Ty) (c : KChain kv) (k1 k2 : Nat)
    (v1 : (kv k1).interp) (v2 : (kv k2).interp) (hne : k1 ≠ k2)
    (_hval : kv k1 = kv k2) :
    ((c.and k1 v1).and k2 v2).get k1 = some v1 ∧
    ((c.and k1 v1).and k2 v2).get k2 = some v2 :=
  ⟨(KChain.kget_entry_ne hne v2 (c.and k1 v1)).trans
      (KChain.kget_entry_self k1 v1 c),
    KChain.kget_entry_self k2 v2 (c.and k1 v1)⟩

/-- Concrete instance of C8: keys `0` and `1` both declare value type
`bool`; each lookup returns its own key's value. -/
theorem claim_C8_witness :
    (((KChain.empty : KChain fun _ => Ty.tBool).and 0 true).and
        1 false).get 0 = some true ∧
    (((KChain.empty : KChain fun _ => Ty.tBool).and 0 true).and
        1 false).get 1 = some false :=
  claim_C8 (fun _ => Ty.tBool) KChain.empty 0 1 true false (by decide) rfl

/-- Claim C9: insertion is framing: `and` only wraps the old chain as the
parent of one fresh entry (it is literally `Chain.entry t v c`), and for
every requested identity `m` different from the inserted one, `get m` and
`get_mut m` on the extended chain give the same result as on the old
chain. -/
theorem claim_C9 (c : Chain) (t : Ty) (v : t.interp) (m : Ty)
    (h : m ≠ t) :
    c.and t v = Chain.entry t v c ∧
    (c.and t v).get m = c.get m ∧
    (c.and t v).get_mut m = c.get_mut m :=
  ⟨rfl, Chain.get_entry_ne h v c, Chain.get_mut_entry_ne h v c⟩

/-- Concrete instance of C9: inserting an `i32` does not change the
result of looking up `bool`. -/
theorem claim_C9_witness :
    (Chain.empty.and .tI32 23 = Chain.entry .tI32 23 Chain.empty) ∧
    (Chain.empty.and .tI32 23).get .tBool = Chain.empty.get .tBool ∧
    (Chain.empty.and .tI32 23).get_mut .tBool
      = Chain.empty.get_mut .tBool :=
  claim_C9 Chain.empty .tI32 23 .tBool (by decide)

/-- Claim C10: each wrapper operation generated by `create_wrapper!`
delegates exactly to the inner chain's operation at the full identity
`out n`; consequently the lookup identity is `out n`, not `n`, so when
`out n = out n2` the wrapper addresses one shared slot: a value inserted
under parameter `n` is found by a lookup under parameter `n2`. -/
theorem claim_C10 (out : Ty → Ty) (n : Ty) (w : Wrapper)
    (v : (out n).interp) :
    Wrapper.get out n w = w.data.get (out n) ∧
    Wrapper.get_mut out n w = w.data.get_mut (out n) ∧
    (Wrapper.and out n w v).data = w.data.and (out n) v ∧
    (Wrapper.and_default out n w).data
      = w.data.and (out n) (Ty.defaultVal (out n)) ∧
    ∀ n2 : Ty, ∀ h : out n = out n2,
      Wrapper.get out n2 (Wrapper.and out n w v)
        = some (cast (congrArg Ty.interp h) v) := by
  refine ⟨rfl, rfl, rfl, rfl, fun n2 h => ?_⟩
  exact Chain.get_entry_eq h v w.data

/-- Concrete instance of C10: under the constant output constructor both
parameters map to the `bool` slot, so a value inserted under `i32` is
found by a lookup under `usize`. -/
theorem claim_C10_witness :
    Wrapper.get (fun _ => Ty.tBool) Ty.tUSize
      (Wrapper.and (fun _ => Ty.tBool) Ty.tI32 Wrapper.new true)
      = some true :=
  (claim_C10 (fun _ => Ty.tBool) Ty.tI32 Wrapper.new true).2.2.2.2
    Ty.tUSize rfl

end RecVar
